import Mathlib

/-!
# Verification of the gcache in-memory cache engine

Shallow embedding of the memory-backed cache of this repository
(`gcache_adapter_memory.go`, the `memoryData`, `memoryLru`,
`memoryExpireTimes`, `memoryExpireSets` helpers and the drain loop of
`syncEventAndClearExpired`), with theorems settling the frozen claims
about it.

Modelling conventions:

* Go `interface{}` values are `Option V` (`none` models Go `nil`); the
  non-nil `*gvar.Var` box returned by read operations is an outer
  `Option`, so `AdapterMemory.Get` returns `Option (Option V)`
  (`none` = the Go function returned a nil `*gvar.Var`).
* Machine `int64` timestamps and durations are `Int`; Go's truncated
  integer division is `Int.tdiv`.
* The clock (`gtime.TimestampMilli()`) is passed explicitly as a `now`
  parameter to every operation that consults it.
* Go maps are association lists `List (K × _)`; `set` is modelled as
  erase-then-cons, which agrees with Go map lookup, membership, and
  live-entry counting for every state reachable from the empty map.
* The LRU tracker keeps a doubly linked list plus a key-to-element
  side map whose key set always equals the list's key set and whose
  elements are determined by their (unique) keys; it is therefore
  modelled by the key list alone (most recent first), with the Go
  `element.Prev() == nil` front test modelled as a `head?` test.
* Functions that the Go code runs for effects only are instrumented to
  return those effects explicitly: `AdapterMemory.Set` and
  `handleLruKey` additionally return the list of LRU-evicted keys, and
  `memoryData.SetWithLock` additionally returns whether the
  caller-supplied producer was invoked.
-/

namespace GCacheProof

/-- `defaultMaxExpire` from `gcache_adapter_memory.go`: the sentinel
absolute expiry (milliseconds) stored when a caller requests zero
duration; equals `math.MaxInt64/1000000`. -/
def defaultMaxExpire : Int := 9223372036854

/-- `memoryDataItem` (source `part_008`/`part_010`): a stored cache
entry, a Go `interface{}` value (`none` = Go nil) plus the absolute
expire timestamp in milliseconds. -/
structure memoryDataItem (V : Type) where
  v : Option V
  e : Int
deriving DecidableEq

/-- `memoryDataItem.IsExpired` (source `part_008`): the entry is
expired exactly when its timestamp is strictly below the clock. -/
def memoryDataItem.IsExpired {V : Type} (item : memoryDataItem V) (now : Int) : Bool :=
  decide (item.e < now)

/-- The `memoryData.data` hash map (source `part_010`), as an
association list. -/
abbrev memoryData (K V : Type) := List (K × memoryDataItem V)

variable {K V E : Type} [DecidableEq K]

namespace memoryData

/-- `memoryData.Get` (source `part_010`): map lookup. -/
def Get (d : memoryData K V) (key : K) : Option (memoryDataItem V) :=
  (d.find? (fun p => decide (p.1 = key))).map Prod.snd

/-- Go `d.data[key] = value`: unconditional overwrite, modelled as
erase-then-cons. -/
def Set (d : memoryData K V) (key : K) (value : memoryDataItem V) : memoryData K V :=
  (key, value) :: d.filter (fun p => decide (p.1 ≠ key))

/-- `memoryData.Delete` (source `part_010`): Go `delete(d.data, key)`. -/
def Delete (d : memoryData K V) (key : K) : memoryData K V :=
  d.filter (fun p => decide (p.1 ≠ key))

/-- `memoryData.Update` (source `part_010`): replace the value keeping
the expire timestamp; returns `(oldValue, exist, newData)`; no-op when
the key is absent. -/
def Update (d : memoryData K V) (key : K) (value : Option V) :
    Option V × Bool × memoryData K V :=
  match Get d key with
  | some item => (item.v, true, Set d key ⟨value, item.e⟩)
  | none => (none, false, d)

/-- `memoryData.Remove` (source `part_010`): delete each present key in
order, recording the removed keys and the value of the last removed
item. -/
def Remove (d : memoryData K V) (keys : List K) :
    List K × Option V × memoryData K V :=
  keys.foldl
    (fun acc key =>
      match Get acc.2.2 key with
      | some item => (acc.1 ++ [key], item.v, Delete acc.2.2 key)
      | none => acc)
    ([], none, d)

/-- `memoryData.Data` (source `part_010`): live-only snapshot of the
key/value pairs; an entry is included only when `e > now`. -/
def Data (d : memoryData K V) (now : Int) : List (K × Option V) :=
  (d.filter (fun p => decide (p.2.e > now))).map (fun p => (p.1, p.2.v))

/-- `memoryData.Keys` (source `part_010`): live-only key snapshot. -/
def Keys (d : memoryData K V) (now : Int) : List K :=
  (d.filter (fun p => decide (p.2.e > now))).map Prod.fst

/-- `memoryData.Values` (source `part_010`): live-only value snapshot. -/
def Values (d : memoryData K V) (now : Int) : List (Option V) :=
  (d.filter (fun p => decide (p.2.e > now))).map (fun p => p.2.v)

/-- `memoryData.Size` (source `part_010`): number of entries with
`e > now`. -/
def Size (d : memoryData K V) (now : Int) : Nat :=
  (d.filter (fun p => decide (p.2.e > now))).length

end memoryData

/-- The heterogeneous `value interface{}` argument of
`memoryData.SetWithLock`: either a plain value or a caller-supplied
producer `Func` returning `(value, error)`. -/
inductive SetParam (V E : Type) where
  | value : Option V → SetParam V E
  | producer : (Unit → Except E (Option V)) → SetParam V E

/-- `memoryData.SetWithLock` (source `part_010`): under the write lock,
if the key is present and unexpired return the stored value; otherwise
run a producer argument (an error is propagated with no store, a nil
result is a no-op returning nil) or store a plain value.  The third
component records whether the producer was invoked. -/
def memoryData.SetWithLock (d : memoryData K V) (key : K) (param : SetParam V E)
    (expireTimestamp now : Int) :
    Except E (Option V) × memoryData K V × Bool :=
  match memoryData.Get d key with
  | some item =>
    if item.IsExpired now then
      match param with
      | SetParam.value v => (Except.ok v, memoryData.Set d key ⟨v, expireTimestamp⟩, false)
      | SetParam.producer f =>
        match f () with
        | Except.error err => (Except.error err, d, true)
        | Except.ok none => (Except.ok none, d, true)
        | Except.ok (some v) =>
          (Except.ok (some v), memoryData.Set d key ⟨some v, expireTimestamp⟩, true)
    else
      (Except.ok item.v, d, false)
  | none =>
    match param with
    | SetParam.value v => (Except.ok v, memoryData.Set d key ⟨v, expireTimestamp⟩, false)
    | SetParam.producer f =>
      match f () with
      | Except.error err => (Except.error err, d, true)
      | Except.ok none => (Except.ok none, d, true)
      | Except.ok (some v) =>
        (Except.ok (some v), memoryData.Set d key ⟨some v, expireTimestamp⟩, true)

/-- `memoryLru` (source `part_009`): capacity plus the MRU-first key
list (standing for the linked list together with its key-to-element
side map, whose key sets coincide). -/
structure memoryLru (K : Type) where
  cap : Int
  list : List K

/-- `memoryLru.doSaveAndEvict` (source `part_009`): move the key to the
front (no-op when already at the front), then pop the back key once the
map size exceeds the capacity. -/
def memoryLru.doSaveAndEvict (l : memoryLru K) (key : K) : memoryLru K × Option K :=
  if key ∈ l.list then
    if l.list.head? = some key then
      (l, none)
    else
      let l1 := key :: l.list.filter (fun x => decide (x ≠ key))
      if (l1.length : Int) ≤ l.cap then ({ l with list := l1 }, none)
      else
        match l1.getLast? with
        | some back => ({ l with list := l1.dropLast }, some back)
        | none => ({ l with list := l1 }, none)
  else
    let l1 := key :: l.list
    if (l1.length : Int) ≤ l.cap then ({ l with list := l1 }, none)
    else
      match l1.getLast? with
      | some back => ({ l with list := l1.dropLast }, some back)
      | none => ({ l with list := l1 }, none)

/-- `memoryLru.SaveAndEvict` (source `part_009`): fold
`doSaveAndEvict` over the keys, collecting the evicted keys. -/
def memoryLru.SaveAndEvict (l : memoryLru K) (keys : List K) : memoryLru K × List K :=
  keys.foldl
    (fun acc key =>
      match acc.1.doSaveAndEvict key with
      | (l', some ev) => (l', acc.2 ++ [ev])
      | (l', none) => (l', acc.2))
    (l, [])

/-- `AdapterMemory` (source `gcache_adapter_memory.go`): the cache
data, the optional LRU manager, the pending event list
`(key, expire-ms)`, and the closed flag.  The sweeper-owned indexes
`expireTimes`/`expireSets` are written only by
`syncEventAndClearExpired` and are modelled separately by
`SweepState`. -/
structure AdapterMemory (K V : Type) where
  data : memoryData K V
  lru : Option (memoryLru K)
  eventList : List (K × Int)
  closed : Bool

/-- `getInternalExpire` (source `gcache_adapter_memory.go`): a zero
duration maps to the never-expires sentinel, otherwise `now` plus the
duration converted from nanoseconds to milliseconds with Go's
truncated integer division. -/
def getInternalExpire (now duration : Int) : Int :=
  if duration = 0 then defaultMaxExpire else now + Int.tdiv duration 1000000

/-- `makeExpireKey` (source `gcache_adapter_memory.go`):
`int64(math.Ceil(float64(expire/1000)+1) * 1000)`.  `expire/1000` is
Go `int64` division (truncation toward zero), so the float passed to
`math.Ceil` is integer-valued and, for every timestamp the cache ever
produces (magnitude well below `2^53`), exactly represented; `Ceil` is
then the identity and the whole expression is the integer below. -/
def makeExpireKey (expire : Int) : Int :=
  (Int.tdiv expire 1000 + 1) * 1000

namespace AdapterMemory

variable (c : AdapterMemory K V)

/-- `doRemove` (source `gcache_adapter_memory.go`): remove the keys
from the data map and push one already-past event (`now - 1000`) per
actually removed key. -/
def doRemove (now : Int) (keys : List K) :
    AdapterMemory K V × List K × Option V :=
  match memoryData.Remove c.data keys with
  | (removedKeys, value, d') =>
    ({ c with
        data := d'
        eventList := c.eventList ++ removedKeys.map (fun k2 => (k2, now - 1000)) },
      removedKeys, value)

/-- `handleLruKey` (source `gcache_adapter_memory.go`): when LRU is
enabled, touch the keys and remove any evicted keys from the data map;
the evicted keys are returned for instrumentation. -/
def handleLruKey (now : Int) (keys : List K) : AdapterMemory K V × List K :=
  match c.lru with
  | none => (c, [])
  | some lru =>
    match lru.SaveAndEvict keys with
    | (lru', evictedKeys) =>
      let c1 : AdapterMemory K V := { c with lru := some lru' }
      if evictedKeys.isEmpty then (c1, [])
      else ((c1.doRemove now evictedKeys).1, evictedKeys)

/-- `Set` (source `gcache_adapter_memory.go`): store the entry with
the computed expire timestamp, push the event, then (deferred) touch
the LRU; returns the LRU-evicted keys as instrumentation. -/
def Set (now : Int) (key : K) (value : Option V) (duration : Int) :
    AdapterMemory K V × List K :=
  let expireTime := getInternalExpire now duration
  let c1 : AdapterMemory K V :=
    { c with
        data := memoryData.Set c.data key ⟨value, expireTime⟩
        eventList := c.eventList ++ [(key, expireTime)] }
  c1.handleLruKey now [key]

/-- `Get` (source `gcache_adapter_memory.go`): return the stored value
(boxed in a non-nil `*gvar.Var`, the outer `some`) when the entry is
present and not expired, touching the LRU; otherwise a nil box. -/
def Get (now : Int) (key : K) : Option (Option V) × AdapterMemory K V :=
  match memoryData.Get c.data key with
  | some item =>
    if item.IsExpired now then (none, c)
    else (some item.v, (c.handleLruKey now [key]).1)
  | none => (none, c)

/-- `Contains` (source `gcache_adapter_memory.go`): `Get` returned a
non-nil box. -/
def Contains (now : Int) (key : K) : Bool × AdapterMemory K V :=
  match c.Get now key with
  | (v, c') => (v.isSome, c')

/-- `GetExpire` (source `gcache_adapter_memory.go`): for a present key
return `time.Duration(item.e - now) * time.Millisecond` (nanoseconds),
touching the LRU; `-1` (nanoseconds) when the key is absent from the
data map. -/
def GetExpire (now : Int) (key : K) : Int × AdapterMemory K V :=
  match memoryData.Get c.data key with
  | some item => ((item.e - now) * 1000000, (c.handleLruKey now [key]).1)
  | none => (-1, c)

/-- `Size` (source `gcache_adapter_memory.go`): delegates to the data
map's live-only count. -/
def Size (now : Int) : Nat :=
  memoryData.Size c.data now

/-- `Keys` (source `gcache_adapter_memory.go`): delegates to the data
map's live-only key snapshot. -/
def Keys (now : Int) : List K :=
  memoryData.Keys c.data now

/-- `Update` (source `gcache_adapter_memory.go`): delegate to
`memoryData.Update` and touch the LRU when the key existed. -/
def Update (now : Int) (key : K) (value : Option V) :
    Option V × Bool × AdapterMemory K V :=
  match memoryData.Update c.data key value with
  | (v, exist, d') =>
    let c1 : AdapterMemory K V := { c with data := d' }
    if exist then (v, exist, (c1.handleLruKey now [key]).1)
    else (v, exist, c1)

/-- `Close` (source `gcache_adapter_memory.go`): set the one-shot
closed flag; nothing else. -/
def Close : AdapterMemory K V :=
  { c with closed := true }

/-- `doSetWithLockCheck` (source `gcache_adapter_memory.go`): run
`memoryData.SetWithLock` and push the event (the Go code pushes it on
every path, errors included). -/
def doSetWithLockCheck (now : Int) (key : K) (param : SetParam V E) (duration : Int) :
    Except E (Option V) × AdapterMemory K V × Bool :=
  let expireTimestamp := getInternalExpire now duration
  match memoryData.SetWithLock c.data key param expireTimestamp now with
  | (res, d', called) =>
    (res, { c with
              data := d'
              eventList := c.eventList ++ [(key, expireTimestamp)] }, called)

/-- `SetIfNotExist` / `SetIfNotExistFuncLock`
(source `gcache_adapter_memory.go`): write through
`doSetWithLockCheck` only when `Contains` is false; the deferred
`handleLruKey` runs on every return path.  Returns
`(added, error, state)`. -/
def SetIfNotExist (now : Int) (key : K) (param : SetParam V E) (duration : Int) :
    Bool × Option E × AdapterMemory K V :=
  match c.Contains now key with
  | (isContained, c1) =>
    if isContained then
      (false, none, (c1.handleLruKey now [key]).1)
    else
      match c1.doSetWithLockCheck now key param duration with
      | (Except.error err, c2, _) => (false, some err, (c2.handleLruKey now [key]).1)
      | (Except.ok _, c2, _) => (true, none, (c2.handleLruKey now [key]).1)

end AdapterMemory

/-- `doNewAdapterMemory` / `newMemoryLru`
(source `gcache_adapter_memory.go`, `part_009`): a fresh cache with an
LRU manager of the given capacity. -/
def newAdapterMemoryLru (cap : Int) : AdapterMemory K V :=
  { data := [], lru := some { cap := cap, list := [] }, eventList := [], closed := false }

/-- `doNewAdapterMemory` (source `gcache_adapter_memory.go`): a fresh
cache without LRU. -/
def newAdapterMemory : AdapterMemory K V :=
  { data := [], lru := none, eventList := [], closed := false }

/-!
## The sweeper state and the drain phase

`syncEventAndClearExpired` is the only writer of
`expireTimes`/`expireSets`.  Its drain loop pops every pending event
and rebuckets the key; this is `syncEvent` below, folded over the
event list.  `memoryExpireTimes.Get` reads a Go map and returns the
zero value `0` for absent keys, so the index is faithfully a total
function `K → Int` with `0` meaning absent; `memoryExpireSets` is a
map of sets with lazily created empty sets, faithfully a total
function `Int → List K` for membership purposes.
-/

/-- The sweeper-owned indexes: `memoryExpireTimes` (key to bucket,
`0` = absent, source `gcache_adapter_memory_expire_times.go`) and
`memoryExpireSets` (bucket to key set, source `part_009`). -/
structure SweepState (K : Type) where
  expireTimes : K → Int
  expireSets : Int → List K

/-- `gset.Set.Add`: insert the key if absent. -/
def gsetAdd (s : List K) (key : K) : List K :=
  if key ∈ s then s else key :: s

/-- `gset.Set.Remove`: delete the key. -/
def gsetRemove (s : List K) (key : K) : List K :=
  s.filter (fun x => decide (x ≠ key))

/-- One iteration of the drain loop of `syncEventAndClearExpired`
(source `gcache_adapter_memory.go`): pop the event, compute the new
bucket, and when it changed add the key to the new bucket, remove it
from the old bucket when the old bucket is nonzero, and update the
index. -/
def syncEvent (st : SweepState K) (event : K × Int) : SweepState K :=
  let oldExpireTime := st.expireTimes event.1
  let newExpireTime := makeExpireKey event.2
  if newExpireTime = oldExpireTime then st
  else
    let sets1 : Int → List K := fun b =>
      if b = newExpireTime then gsetAdd (st.expireSets b) event.1 else st.expireSets b
    let sets2 : Int → List K :=
      if oldExpireTime ≠ 0 then
        fun b => if b = oldExpireTime then gsetRemove (sets1 b) event.1 else sets1 b
      else sets1
    { expireTimes := fun k => if k = event.1 then newExpireTime else st.expireTimes k
      expireSets := sets2 }

/-- The whole drain phase: fold `syncEvent` over the pending events in
FIFO order. -/
def drainEvents (st : SweepState K) (events : List (K × Int)) : SweepState K :=
  events.foldl syncEvent st

/-- The index invariants of the spec (§3 items 2-4), stated over the
model: a key present in the index (nonzero bucket) is in that bucket;
a key in any bucket is indexed to exactly that bucket.  Presence in
the Go map is observable only through `Get`, which conflates absence
with the stored value `0`, hence the `≠ 0` reading. -/
def SweepInv (st : SweepState K) : Prop :=
  (∀ k : K, st.expireTimes k ≠ 0 → k ∈ st.expireSets (st.expireTimes k)) ∧
  (∀ (k : K) (b : Int), k ∈ st.expireSets b → st.expireTimes k = b)

/-- One step of a sequence of `Set` calls: apply `AdapterMemory.Set`
and accumulate the LRU-evicted keys. -/
def setStep (now : Int) (v : Option V) (duration : Int)
    (acc : AdapterMemory K V × List K) (key : K) : AdapterMemory K V × List K :=
  match acc.1.Set now key v duration with
  | (c', ev) => (c', acc.2 ++ ev)

/-- A sequence of `Set(k, v, duration)` calls, one per key in order,
with the LRU-evicted keys accumulated. -/
def setSeq (c : AdapterMemory K V) (now : Int) (v : Option V) (duration : Int)
    (keys : List K) : AdapterMemory K V × List K :=
  keys.foldl (setStep now v duration) (c, [])

/-- Modelled from the spec's bucketing formula, for comparison with
`makeExpireKey`: `⌈(expiryMs ÷ 1000) + 1⌉ × 1000` with `÷` read as
exact (real) division. -/
def specCeilBucket (expire : Int) : Int :=
  ⌈(expire : ℚ) / 1000 + 1⌉ * 1000

/-!
## Helper lemmas about the association-list map
-/

theorem find?_filter_of_imp (l : List (K × memoryDataItem V)) (p q : K × memoryDataItem V → Bool)
    (h : ∀ x, p x = true → q x = true) :
    (l.filter q).find? p = l.find? p := by
  induction l with
  | nil => rfl
  | cons a l ih =>
    by_cases hq : q a = true
    · rw [List.filter_cons_of_pos hq]
      by_cases hp : p a = true
      · rw [List.find?_cons_of_pos _ hp, List.find?_cons_of_pos _ hp]
      · rw [List.find?_cons_of_neg _ (by simp [hp]), List.find?_cons_of_neg _ (by simp [hp]), ih]
    · rw [List.filter_cons_of_neg (by simp [hq]), ih,
        List.find?_cons_of_neg]
      intro hpa
      exact hq (h a (by simpa using hpa))

theorem memoryData.Get_Set_self (d : memoryData K V) (key : K) (it : memoryDataItem V) :
    memoryData.Get (memoryData.Set d key it) key = some it := by
  unfold memoryData.Get memoryData.Set
  rw [List.find?_cons_of_pos _ (by simp)]
  rfl

theorem memoryData.Get_Set_other (d : memoryData K V) (key k2 : K) (it : memoryDataItem V)
    (h : k2 ≠ key) :
    memoryData.Get (memoryData.Set d key it) k2 = memoryData.Get d k2 := by
  unfold memoryData.Get memoryData.Set
  rw [List.find?_cons_of_neg _ (by simpa using Ne.symm h),
    find?_filter_of_imp]
  intro x hx
  simp only [decide_eq_true_eq] at hx ⊢
  rw [hx]
  exact h

theorem memoryData.Get_Delete_self (d : memoryData K V) (key : K) :
    memoryData.Get (memoryData.Delete d key) key = none := by
  unfold memoryData.Get memoryData.Delete
  rw [List.find?_eq_none.2]
  · rfl
  · intro x hx
    have := List.of_mem_filter hx
    simp only [decide_eq_true_eq] at this ⊢
    exact this

theorem memoryData.Get_Delete_other (d : memoryData K V) (key k2 : K) (h : k2 ≠ key) :
    memoryData.Get (memoryData.Delete d key) k2 = memoryData.Get d k2 := by
  unfold memoryData.Get memoryData.Delete
  rw [find?_filter_of_imp]
  intro x hx
  simp only [decide_eq_true_eq] at hx ⊢
  rw [hx]
  exact h

/-- Under key-uniqueness, the pair found by `Get` is the only pair
carrying its key. -/
theorem memoryData.mem_eq_of_Get (d : memoryData K V) (key : K) (item : memoryDataItem V)
    (hnd : (d.map Prod.fst).Nodup) (hget : memoryData.Get d key = some item) :
    ∀ x ∈ d, x.1 = key → x = (key, item) := by
  induction d with
  | nil => intro x hx; simp at hx
  | cons a d ih =>
    intro x hx hxk
    rw [List.map_cons, List.nodup_cons] at hnd
    by_cases ha : a.1 = key
    · unfold memoryData.Get at hget
      rw [List.find?_cons_of_pos _ (by simp [ha])] at hget
      rcases List.mem_cons.1 hx with h1 | h1
      · subst h1
        cases x
        simp_all
      · exfalso
        apply hnd.1
        rw [ha, ← hxk]
        exact List.mem_map_of_mem Prod.fst h1
    · unfold memoryData.Get at hget
      rw [List.find?_cons_of_neg _ (by simp [ha])] at hget
      rcases List.mem_cons.1 hx with h1 | h1
      · exact absurd (h1 ▸ hxk) ha
      · exact ih hnd.2 hget x h1 hxk

/-- Deleting a key whose entries are all dead does not change the
live-entry filter. -/
theorem filter_live_Delete (d : memoryData K V) (key : K) (now : Int)
    (h : ∀ x ∈ d, x.1 = key → ¬ (now < x.2.e)) :
    (memoryData.Delete d key).filter (fun p => decide (p.2.e > now)) =
      d.filter (fun p => decide (p.2.e > now)) := by
  induction d with
  | nil => rfl
  | cons a d ih =>
    unfold memoryData.Delete at ih ⊢
    by_cases ha : a.1 = key
    · rw [List.filter_cons_of_neg (by simp [ha]),
        List.filter_cons_of_neg (by simpa using h a (List.mem_cons_self a d) ha)]
      exact ih (fun x hx => h x (List.mem_cons_of_mem a hx))
    · rw [List.filter_cons_of_pos (by simp [ha]), List.filter_cons, List.filter_cons]
      rw [ih (fun x hx => h x (List.mem_cons_of_mem a hx))]

/-!
## Claims
-/

/-- The cache after `Set(7, nil, 60s)` at clock 1000 on a fresh
no-LRU cache (concrete scenario for the nil-value case). -/
def cacheAfterSetNil : AdapterMemory Nat Nat :=
  ((newAdapterMemory : AdapterMemory Nat Nat).Set 1000 7 none 60000000000).1

/-- The cache after `Set(7, 5, -5s)` at clock 1000 on a fresh no-LRU
cache (concrete scenario for the negative-duration case). -/
def cacheAfterSetNegative : AdapterMemory Nat Nat :=
  ((newAdapterMemory : AdapterMemory Nat Nat).Set 1000 7 (some 5) (-5000000000)).1

/-- The cache after `Set(1, 2, 0)` (never expiring) at clock
1700000000000 on a fresh no-LRU cache. -/
def cacheAfterSetNever : AdapterMemory Nat Nat :=
  ((newAdapterMemory : AdapterMemory Nat Nat).Set 1700000000000 1 (some 2) 0).1

/-- The cache after `Set(1, 42, 0)` at clock 1000 and then `Close()`,
on a fresh no-LRU cache. -/
def cacheClosedAfterSet : AdapterMemory Nat Nat :=
  (((newAdapterMemory : AdapterMemory Nat Nat).Set 1000 1 (some 42) 0).1).Close

/-- C1.  The claim says `Set(k, v, d)` with `d < 0` or `v == nil`
removes `k`.  The code stores an entry in both cases (evaluated here at
concrete inputs): with `v = nil` and `d = 60 s` at clock 1000 the key
is contained, has expire duration 60 s (not −1) and appears in
`Keys()`; with `d = −5 s` the key stays in the data map and
`GetExpire` returns −5 s (not −1).  This contradicts the function's
own documentation, which promises deletion. -/
theorem set_nil_or_negative_duration_stores_entry :
    (cacheAfterSetNil.Contains 1000 7).1 = true ∧
    (cacheAfterSetNil.GetExpire 1000 7).1 = 60000000000 ∧
    7 ∈ cacheAfterSetNil.Keys 1000 ∧
    memoryData.Get cacheAfterSetNegative.data 7 ≠ none ∧
    (cacheAfterSetNegative.GetExpire 1000 7).1 = -5000000000 := by
  refine ⟨rfl, rfl, by decide, by decide, rfl⟩

/-- C2.  The claim (and the code's own documentation) says
`GetExpire(k)` returns 0 for a never-expiring key.  In the code a key
set with duration 0 stores the sentinel `defaultMaxExpire`, and
`GetExpire` then returns `(defaultMaxExpire − now)` — at clock
1700000000000 that is 7523372036854000000 ns, not 0.  The absent-key
branch does return −1 as claimed. -/
theorem getExpire_never_expiring_not_zero :
    (cacheAfterSetNever.GetExpire 1700000000000 1).1 = 7523372036854000000 ∧
    (cacheAfterSetNever.GetExpire 1700000000000 1).1 ≠ 0 ∧
    ((newAdapterMemory : AdapterMemory Nat Nat).GetExpire 1700000000000 1).1 = -1 := by
  refine ⟨rfl, by decide, rfl⟩

/-- C3, counterexample.  The claim says a closed cache behaves as an
empty cache: `Get` null, `Contains` false, `Size` 0.  Concretely: set
key 1 (never expiring), close, and all three read non-empty. -/
theorem closed_cache_not_empty :
    (cacheClosedAfterSet.Get 1000 1).1 ≠ none ∧
    (cacheClosedAfterSet.Contains 1000 1).1 ≠ false ∧
    cacheClosedAfterSet.Size 1000 ≠ 0 := by
  refine ⟨by decide, by decide, by decide⟩

/-- C3, amended.  `Close` only sets the one-shot closed flag (stopping
the background sweeper); no public read operation consults it, so a
closed cache returns no error and behaves exactly as it did before the
close — previously set unexpired keys are still served. -/
theorem close_preserves_reads (c : AdapterMemory K V) (now : Int) (key : K) :
    (c.Close.Get now key).1 = (c.Get now key).1 ∧
    (c.Close.Contains now key).1 = (c.Contains now key).1 ∧
    c.Close.Size now = c.Size now ∧
    c.Close.Keys now = c.Keys now ∧
    c.Close.closed = true := by
  have hGet : (c.Close.Get now key).1 = (c.Get now key).1 := by
    have hd : c.Close.data = c.data := rfl
    unfold AdapterMemory.Get
    rw [hd]
    cases memoryData.Get c.data key with
    | none => rfl
    | some item =>
      by_cases h : item.IsExpired now
      · simp [h]
      · simp [h]
  refine ⟨hGet, ?_, rfl, rfl, rfl⟩
  show (c.Close.Get now key).1.isSome = (c.Get now key).1.isSome
  rw [hGet]

/-- C4, counterexample.  The claim reads the bucketing formula with
exact (real) division: `⌈(expiryMs ÷ 1000) + 1⌉ × 1000`.  At
`expiryMs = 1500` that gives 3000, but the code divides `int64`s first
(truncating), giving bucket 2000. -/
theorem makeExpireKey_differs_from_real_ceil :
    makeExpireKey 1500 = 2000 ∧ specCeilBucket 1500 = 3000 ∧ (2000 : Int) ≠ 3000 := by
  refine ⟨rfl, ?_, by decide⟩
  unfold specCeilBucket
  have h : ((1500 : Int) : ℚ) / 1000 + 1 = 5 / 2 := by norm_num
  rw [h]
  have h2 : (⌈((5 : ℚ) / 2)⌉ : Int) = 3 := by
    rw [Int.ceil_eq_iff] <;> norm_num
  rw [h2]
  norm_num

/-- C4, amended.  For nonnegative expiry timestamps the bucket key is
`(⌊expiryMs / 1000⌋ + 1) × 1000` (truncating integer division, which
is floor division for nonnegative input); in particular a timestamp
exactly on a second boundary lands one bucket after that boundary, and
the bucket always lies strictly after the timestamp. -/
theorem makeExpireKey_floor_plus_one (e : Int) (he : 0 ≤ e) :
    makeExpireKey e = (e / 1000 + 1) * 1000 ∧
    (e % 1000 = 0 → makeExpireKey e = e + 1000) ∧
    e < makeExpireKey e := by
  lift e to ℕ using he
  have h : Int.tdiv (e : Int) 1000 = (e : Int) / 1000 := rfl
  unfold makeExpireKey
  rw [h]
  omega

/-- C4, amended, witness at the second boundary 2000. -/
theorem makeExpireKey_floor_plus_one_witness :
    (0 : Int) ≤ 2000 ∧ makeExpireKey 2000 = 2000 + 1000 :=
  ⟨by decide, (makeExpireKey_floor_plus_one 2000 (by decide)).2.1 (by decide)⟩

/-- C5.  `SetWithLock` is a lock-protected compute-if-absent: when the
key is present and unexpired it returns the stored value, changes
nothing, and never invokes the producer (flag `false` for every
parameter); when the producer runs and fails, its error is returned
unchanged with the data map untouched; when the producer returns nil,
nothing is stored and nil is returned. -/
theorem setWithLock_compute_if_absent (d : memoryData K V) (key : K) (expire now : Int) :
    (∀ (item : memoryDataItem V), memoryData.Get d key = some item →
      item.IsExpired now = false →
      ∀ param : SetParam V E,
        memoryData.SetWithLock d key param expire now = (Except.ok item.v, d, false)) ∧
    (∀ (f : Unit → Except E (Option V)) (err : E),
      (∀ item, memoryData.Get d key = some item → item.IsExpired now = true) →
      f () = Except.error err →
      memoryData.SetWithLock d key (SetParam.producer f) expire now
        = (Except.error err, d, true)) ∧
    (∀ f : Unit → Except E (Option V),
      (∀ item, memoryData.Get d key = some item → item.IsExpired now = true) →
      f () = Except.ok none →
      memoryData.SetWithLock d key (SetParam.producer f) expire now
        = (Except.ok none, d, true)) := by
  refine ⟨?_, ?_, ?_⟩
  · intro item hitem hlive param
    unfold memoryData.SetWithLock
    rw [hitem]
    simp [hlive]
  · intro f err hexp hf
    unfold memoryData.SetWithLock
    cases hg : memoryData.Get d key with
    | none => simp [hf]
    | some item => simp [hexp item hg, hf]
  · intro f hexp hf
    unfold memoryData.SetWithLock
    cases hg : memoryData.Get d key with
    | none => simp [hf]
    | some item => simp [hexp item hg, hf]

/-- C5, witness: live hit returns the stored value without invoking
the producer; on the empty map a failing producer propagates its error
unchanged and a nil-returning producer stores nothing. -/
theorem setWithLock_compute_if_absent_witness :
    memoryData.SetWithLock [((0 : Nat), (⟨some 1, 100⟩ : memoryDataItem Nat))] 0
        (SetParam.value (E := Nat) (some 9)) 777 50 = (Except.ok (some 1), [(0, ⟨some 1, 100⟩)], false) ∧
    memoryData.SetWithLock ([] : memoryData Nat Nat) 0
        (SetParam.producer (fun _ => Except.error (7 : Nat))) 777 50 = (Except.error 7, [], true) ∧
    memoryData.SetWithLock ([] : memoryData Nat Nat) 0
        (SetParam.producer (E := Nat) (fun _ => Except.ok none)) 777 50
      = (Except.ok none, [], true) := by
  refine ⟨?_, ?_, ?_⟩
  · exact (setWithLock_compute_if_absent [((0 : Nat), (⟨some 1, 100⟩ : memoryDataItem Nat))]
      0 777 50).1 ⟨some 1, 100⟩ (by decide) (by decide) (SetParam.value (some 9))
  · exact (setWithLock_compute_if_absent ([] : memoryData Nat Nat) 0 777 50).2.1
      (fun _ => Except.error 7) 7 (fun item h => by simp [memoryData.Get] at h) rfl
  · exact (setWithLock_compute_if_absent ([] : memoryData Nat Nat) 0 777 50).2.2
      (fun _ => Except.ok none) (fun item h => by simp [memoryData.Get] at h) rfl

/-- C9.  `Update(k, v2)` on a present key returns the old value with
`existed = true`, stores `v2` under the very same expire timestamp,
and leaves every other key's entry untouched; on an absent key it is a
no-op returning `existed = false`.  Consequently, on a cache without
LRU, `GetExpire` reads the same value before and after an `Update`. -/
theorem update_replaces_value_only (d : memoryData K V) (key : K) (v2 : Option V) :
    (∀ item : memoryDataItem V, memoryData.Get d key = some item →
      memoryData.Update d key v2 = (item.v, true, memoryData.Set d key ⟨v2, item.e⟩) ∧
      memoryData.Get (memoryData.Update d key v2).2.2 key = some ⟨v2, item.e⟩ ∧
      ∀ k2, k2 ≠ key →
        memoryData.Get (memoryData.Update d key v2).2.2 k2 = memoryData.Get d k2) ∧
    (memoryData.Get d key = none → memoryData.Update d key v2 = (none, false, d)) ∧
    (∀ (c : AdapterMemory K V) (now : Int), c.lru = none → c.data = d →
      ((c.Update now key v2).2.2.GetExpire now key).1 = (c.GetExpire now key).1) := by
  have hup : ∀ item : memoryDataItem V, memoryData.Get d key = some item →
      memoryData.Update d key v2 = (item.v, true, memoryData.Set d key ⟨v2, item.e⟩) := by
    intro item hitem
    unfold memoryData.Update
    rw [hitem]
  have hnone : memoryData.Get d key = none → memoryData.Update d key v2 = (none, false, d) := by
    intro hitem
    unfold memoryData.Update
    rw [hitem]
  refine ⟨?_, hnone, ?_⟩
  · intro item hitem
    refine ⟨hup item hitem, ?_, ?_⟩
    · rw [hup item hitem]
      exact memoryData.Get_Set_self d key ⟨v2, item.e⟩
    · intro k2 hk2
      rw [hup item hitem]
      exact memoryData.Get_Set_other d key k2 ⟨v2, item.e⟩ hk2
  · intro c now hlru hdata
    subst hdata
    cases hitem : memoryData.Get c.data key with
    | some item =>
      have h1 : (c.Update now key v2).2.2.data = memoryData.Set c.data key ⟨v2, item.e⟩ := by
        unfold AdapterMemory.Update
        rw [hup item hitem]
        simp [AdapterMemory.handleLruKey, hlru]
      unfold AdapterMemory.GetExpire
      rw [h1, memoryData.Get_Set_self c.data key ⟨v2, item.e⟩, hitem]
    | none =>
      have h1 : (c.Update now key v2).2.2.data = c.data := by
        unfold AdapterMemory.Update
        rw [hnone hitem]
        simp
      unfold AdapterMemory.GetExpire
      rw [h1, hitem]

/-- C9, witness at a concrete present key and a concrete absent key. -/
theorem update_replaces_value_only_witness :
    memoryData.Update [((0 : Nat), (⟨some 1, 99⟩ : memoryDataItem Nat))] 0 (some 2)
      = (some 1, true, [(0, ⟨some 2, 99⟩)]) ∧
    memoryData.Update ([] : memoryData Nat Nat) 0 (some 2) = (none, false, []) := by
  constructor
  · have h := ((update_replaces_value_only
      [((0 : Nat), (⟨some 1, 99⟩ : memoryDataItem Nat))] 0 (some 2)).1
      ⟨some 1, 99⟩ (by decide)).1
    rw [h]
    rfl
  · exact (update_replaces_value_only ([] : memoryData Nat Nat) 0 (some 2)).2.1 (by decide)

/-- C10.  At the instant the expiry timestamp equals the clock, the
read path and the snapshot views disagree: `Get` still returns the
stored value (expiry needs `e < now` strictly) and `Contains` is true,
while `Keys`, `Data`, `Size` and `Values` exclude the entry (they
require `e > now` strictly). -/
theorem boundary_read_vs_snapshots (c : AdapterMemory K V) (key : K)
    (item : memoryDataItem V) (now : Int)
    (hnd : (c.data.map Prod.fst).Nodup)
    (hitem : memoryData.Get c.data key = some item)
    (he : item.e = now) :
    (c.Get now key).1 = some item.v ∧
    (c.Contains now key).1 = true ∧
    key ∉ memoryData.Keys c.data now ∧
    (∀ p ∈ memoryData.Data c.data now, p.1 ≠ key) ∧
    memoryData.Size c.data now = memoryData.Size (memoryData.Delete c.data key) now ∧
    memoryData.Values c.data now = memoryData.Values (memoryData.Delete c.data key) now := by
  have hdead : ∀ x ∈ c.data, x.1 = key → ¬ (now < x.2.e) := by
    intro x hx hxk
    rw [memoryData.mem_eq_of_Get c.data key item hnd hitem x hx hxk]
    simp [he]
  have hGet : (c.Get now key).1 = some item.v := by
    unfold AdapterMemory.Get
    rw [hitem]
    simp [memoryDataItem.IsExpired, he]
  refine ⟨hGet, ?_, ?_, ?_, ?_, ?_⟩
  · show (c.Get now key).1.isSome = true
    rw [hGet]
    rfl
  · intro hmem
    unfold memoryData.Keys at hmem
    rcases List.mem_map.1 hmem with ⟨x, hx, hxk⟩
    rcases List.mem_filter.1 hx with ⟨hxd, hlive⟩
    exact hdead x hxd hxk (by simpa using hlive)
  · intro p hp hpk
    unfold memoryData.Data at hp
    rcases List.mem_map.1 hp with ⟨x, hx, hxp⟩
    rcases List.mem_filter.1 hx with ⟨hxd, hlive⟩
    exact hdead x hxd (by rw [← hxp] at hpk; exact hpk) (by simpa using hlive)
  · unfold memoryData.Size
    rw [filter_live_Delete c.data key now hdead]
  · unfold memoryData.Values
    rw [filter_live_Delete c.data key now hdead]

/-- C10, witness: a single-entry cache whose entry expires exactly at
the clock instant 500. -/
theorem boundary_read_vs_snapshots_witness :
    ((⟨[(0, ⟨some 3, 500⟩)], none, [], false⟩ : AdapterMemory Nat Nat).Get 500 0).1
        = some (some 3) ∧
    ((⟨[(0, ⟨some 3, 500⟩)], none, [], false⟩ : AdapterMemory Nat Nat).Contains 500 0).1 = true ∧
    0 ∉ memoryData.Keys ([(0, ⟨some 3, 500⟩)] : memoryData Nat Nat) 500 ∧
    (∀ p ∈ memoryData.Data ([(0, ⟨some 3, 500⟩)] : memoryData Nat Nat) 500, p.1 ≠ 0) ∧
    memoryData.Size ([(0, ⟨some 3, 500⟩)] : memoryData Nat Nat) 500
      = memoryData.Size (memoryData.Delete ([(0, ⟨some 3, 500⟩)] : memoryData Nat Nat) 0) 500 ∧
    memoryData.Values ([(0, ⟨some 3, 500⟩)] : memoryData Nat Nat) 500
      = memoryData.Values (memoryData.Delete ([(0, ⟨some 3, 500⟩)] : memoryData Nat Nat) 0) 500 :=
  boundary_read_vs_snapshots (⟨[(0, ⟨some 3, 500⟩)], none, [], false⟩ : AdapterMemory Nat Nat)
    0 ⟨some 3, 500⟩ 500 (by decide) (by decide) rfl

theorem mem_gsetAdd {s : List K} {k x : K} : k ∈ gsetAdd s x ↔ k = x ∨ k ∈ s := by
  unfold gsetAdd
  by_cases h : x ∈ s
  · rw [if_pos h]
    constructor
    · exact Or.inr
    · rintro (rfl | hk)
      · exact h
      · exact hk
  · rw [if_neg h]
    exact List.mem_cons

theorem mem_gsetRemove {s : List K} {k x : K} : k ∈ gsetRemove s x ↔ k ∈ s ∧ k ≠ x := by
  unfold gsetRemove
  rw [List.mem_filter]
  simp

/-- One drain iteration preserves the invariants, provided the event's
bucket key is nonzero and the zero bucket is empty. -/
theorem syncEvent_preserves (st : SweepState K) (ev : K × Int)
    (hev : makeExpireKey ev.2 ≠ 0) (hinv : SweepInv st) (h0 : st.expireSets 0 = []) :
    SweepInv (syncEvent st ev) ∧ (syncEvent st ev).expireSets 0 = [] := by
  obtain ⟨x, e⟩ := ev
  simp only at hev
  unfold syncEvent
  simp only
  by_cases hne : makeExpireKey e = st.expireTimes x
  · rw [if_pos hne]
    exact ⟨hinv, h0⟩
  · rw [if_neg hne]
    by_cases hold : st.expireTimes x = 0
    · rw [if_neg (by simpa using hold)]
      refine ⟨⟨?_, ?_⟩, ?_⟩
      · intro k hk
        simp only at hk ⊢
        by_cases hkx : k = x
        · subst hkx
          rw [if_pos rfl] at hk ⊢
          rw [if_pos rfl]
          exact mem_gsetAdd.2 (Or.inl rfl)
        · rw [if_neg hkx] at hk ⊢
          by_cases hb : st.expireTimes k = makeExpireKey e
          · rw [if_pos hb]
            exact mem_gsetAdd.2 (Or.inr (hinv.1 k hk))
          · rw [if_neg hb]
            exact hinv.1 k hk
      · intro k b hkb
        simp only at hkb ⊢
        by_cases hbnew : b = makeExpireKey e
        · subst hbnew
          rw [if_pos rfl] at hkb
          rcases mem_gsetAdd.1 hkb with rfl | hks
          · rw [if_pos rfl]
          · have hkt := hinv.2 k _ hks
            by_cases hkx : k = x
            · subst hkx
              rw [hold] at hkt
              exact absurd hkt.symm hev
            · rw [if_neg hkx]
              exact hkt
        · rw [if_neg hbnew] at hkb
          have hkt := hinv.2 k b hkb
          by_cases hkx : k = x
          · subst hkx
            rw [hold] at hkt
            rw [← hkt] at hkb
            rw [h0] at hkb
            cases hkb
          · rw [if_neg hkx]
            exact hkt
      · simp only
        rw [if_neg (by exact fun h => hev h.symm), h0]
    · rw [if_pos (by simpa using hold)]
      refine ⟨⟨?_, ?_⟩, ?_⟩
      · intro k hk
        simp only at hk ⊢
        by_cases hkx : k = x
        · subst hkx
          rw [if_pos rfl] at hk ⊢
          rw [if_neg (fun h => hne (by rw [h])), if_pos rfl]
          exact mem_gsetAdd.2 (Or.inl rfl)
        · rw [if_neg hkx] at hk ⊢
          by_cases hbo : st.expireTimes k = st.expireTimes x
          · rw [if_pos hbo]
            refine mem_gsetRemove.2 ⟨?_, hkx⟩
            by_cases hb : st.expireTimes k = makeExpireKey e
            · rw [if_pos hb]
              exact mem_gsetAdd.2 (Or.inr (hinv.1 k hk))
            · rw [if_neg hb]
              exact hinv.1 k hk
          · rw [if_neg hbo]
            by_cases hb : st.expireTimes k = makeExpireKey e
            · rw [if_pos hb]
              exact mem_gsetAdd.2 (Or.inr (hinv.1 k hk))
            · rw [if_neg hb]
              exact hinv.1 k hk
      · intro k b hkb
        simp only at hkb ⊢
        by_cases hbo : b = st.expireTimes x
        · subst hbo
          rw [if_pos rfl] at hkb
          have hks := mem_gsetRemove.1 hkb
          rw [if_neg (fun h => hne h.symm)] at hks
          have hkt := hinv.2 k _ hks.1
          rw [if_neg hks.2]
          exact hkt
        · rw [if_neg hbo] at hkb
          by_cases hbnew : b = makeExpireKey e
          · subst hbnew
            rw [if_pos rfl] at hkb
            rcases mem_gsetAdd.1 hkb with rfl | hks
            · rw [if_pos rfl]
            · have hkt := hinv.2 k _ hks
              by_cases hkx : k = x
              · subst hkx
                exact absurd hkt.symm (fun h => hne h)
              · rw [if_neg hkx]
                exact hkt
          · rw [if_neg hbnew] at hkb
            have hkt := hinv.2 k b hkb
            by_cases hkx : k = x
            · subst hkx
              exact absurd hkt (fun h => hbo h.symm)
            · rw [if_neg hkx]
              exact hkt
      · simp only
        rw [if_neg (fun h => hold h.symm), if_neg (fun h => hev h.symm), h0]

/-- C7, amended.  The drain phase preserves the index invariants
(including each key belonging to at most one bucket) for every event
sequence whose computed bucket keys are nonzero — true of every event
the cache emits once the clock is at least one millisecond past the
epoch — starting from a state satisfying them whose zero bucket is
empty. -/
theorem drain_preserves_invariants (events : List (K × Int)) :
    ∀ st : SweepState K, (∀ ev ∈ events, makeExpireKey ev.2 ≠ 0) → SweepInv st →
      st.expireSets 0 = [] →
      SweepInv (drainEvents st events) ∧ (drainEvents st events).expireSets 0 = [] ∧
      ∀ (k : K) (b b2 : Int), k ∈ (drainEvents st events).expireSets b →
        k ∈ (drainEvents st events).expireSets b2 → b = b2 := by
  induction events with
  | nil =>
    intro st _ hinv h0
    exact ⟨hinv, h0, fun k b b2 h1 h2 => (hinv.2 k b h1).symm.trans (hinv.2 k b2 h2)⟩
  | cons ev evs ih =>
    intro st hev hinv h0
    have hstep := syncEvent_preserves st ev (hev ev (List.mem_cons_self ev evs)) hinv h0
    exact ih (syncEvent st ev) (fun e2 h2 => hev e2 (List.mem_cons_of_mem ev h2))
      hstep.1 hstep.2

/-- C7, amended, witness: one event from the empty sweeper state. -/
theorem drain_preserves_invariants_witness :
    SweepInv (drainEvents (⟨fun _ => 0, fun _ => []⟩ : SweepState Nat) [(0, 5000)]) :=
  (drain_preserves_invariants [((0 : Nat), (5000 : Int))]
    (⟨fun _ => 0, fun _ => []⟩ : SweepState Nat)
    (by intro ev h; rw [List.mem_singleton] at h; subst h; decide)
    ⟨fun k h => absurd rfl h, fun k b h => by cases h⟩ rfl).1

/-- The empty sweeper state over natural-number keys. -/
def sweepEmptyNat : SweepState Nat := ⟨fun _ => 0, fun _ => []⟩

/-- The sweeper state after draining three events for key 0: expiry
5000 (bucket 6000), then −1000 (bucket 0), then 5000 again. -/
def sweepAfterBadEvents : SweepState Nat :=
  drainEvents sweepEmptyNat [(0, 5000), (0, -1000), (0, 5000)]

/-- C7, counterexample.  Starting from the empty state (which
satisfies the invariants), draining the events
`(k, 5000), (k, −1000), (k, 5000)` leaves key `k` in two buckets at
once (bucket 0 and bucket 6000): moving a key out of bucket 0 never
removes it there because the code treats index value 0 as "absent",
so the invariants are not preserved by arbitrary event sequences. -/
theorem drain_violates_invariants :
    SweepInv sweepEmptyNat ∧
    0 ∈ sweepAfterBadEvents.expireSets 0 ∧
    0 ∈ sweepAfterBadEvents.expireSets 6000 ∧
    ((0 : Int) ≠ 6000) ∧
    ¬ SweepInv sweepAfterBadEvents := by
  refine ⟨⟨fun k h => absurd rfl h, fun k b h => by cases h⟩,
    by decide, by decide, by decide, ?_⟩
  intro h
  exact absurd (h.2 0 0 (by decide)) (by decide)

theorem AdapterMemory.handleLruKey_none (c : AdapterMemory K V) (h : c.lru = none)
    (now : Int) (ks : List K) : c.handleLruKey now ks = (c, []) := by
  unfold AdapterMemory.handleLruKey
  rw [h]

/-- C8.  On a cache without LRU where `key` is absent,
`SetIfNotExist(key, v1, d)` with `0 < d` returns `true`; a second
`SetIfNotExist(key, v2, d)` at any instant `t2` at which the first
entry is unexpired returns `false`; and a `Get` at any such instant
`t3` returns `v1`. -/
theorem setIfNotExist_first_write_wins (c0 : AdapterMemory K V) (key : K) (v1 v2 : V)
    (d t1 t2 t3 : Int)
    (hlru : c0.lru = none)
    (habs : memoryData.Get c0.data key = none)
    (hd : 0 < d)
    (hlive2 : t2 ≤ getInternalExpire t1 d)
    (hlive3 : t3 ≤ getInternalExpire t1 d) :
    (c0.SetIfNotExist (E := E) t1 key (SetParam.value (some v1)) d).1 = true ∧
    ((c0.SetIfNotExist (E := E) t1 key (SetParam.value (some v1)) d).2.2.SetIfNotExist
        (E := E) t2 key (SetParam.value (some v2)) d).1 = false ∧
    (((c0.SetIfNotExist (E := E) t1 key (SetParam.value (some v1)) d).2.2.SetIfNotExist
        (E := E) t2 key (SetParam.value (some v2)) d).2.2.Get t3 key).1 = some (some v1) := by
  have hGet0 : c0.Get t1 key = (none, c0) := by
    unfold AdapterMemory.Get
    rw [habs]
  have hCont0 : c0.Contains t1 key = (false, c0) := by
    unfold AdapterMemory.Contains
    rw [hGet0]
    rfl
  set e1 : Int := getInternalExpire t1 d with he1
  set cSet : AdapterMemory K V :=
    { data := memoryData.Set c0.data key ⟨some v1, e1⟩
      lru := c0.lru
      eventList := c0.eventList ++ [(key, e1)]
      closed := c0.closed } with hcSet
  have hcSetLru : cSet.lru = none := hlru
  have h1 : c0.SetIfNotExist (E := E) t1 key (SetParam.value (some v1)) d
      = (true, none, cSet) := by
    unfold AdapterMemory.SetIfNotExist
    rw [hCont0]
    simp only [Bool.false_eq_true, if_false]
    unfold AdapterMemory.doSetWithLockCheck
    unfold memoryData.SetWithLock
    rw [habs]
    simp only
    rw [AdapterMemory.handleLruKey_none _ hcSetLru]
  have hget1 : memoryData.Get cSet.data key = some ⟨some v1, e1⟩ :=
    memoryData.Get_Set_self c0.data key ⟨some v1, e1⟩
  have hlive : ∀ t : Int, t ≤ e1 →
      (memoryDataItem.IsExpired (⟨some v1, e1⟩ : memoryDataItem V) t) = false := by
    intro t ht
    unfold memoryDataItem.IsExpired
    simp only [decide_eq_false_iff_not]
    omega
  have hGet2 : cSet.Get t2 key = (some (some v1), cSet) := by
    unfold AdapterMemory.Get
    rw [hget1]
    simp only
    rw [hlive t2 hlive2]
    simp only [Bool.false_eq_true, if_false]
    rw [AdapterMemory.handleLruKey_none _ hcSetLru]
  have hCont2 : cSet.Contains t2 key = (true, cSet) := by
    unfold AdapterMemory.Contains
    rw [hGet2]
    rfl
  have h2 : cSet.SetIfNotExist (E := E) t2 key (SetParam.value (some v2)) d
      = (false, none, cSet) := by
    unfold AdapterMemory.SetIfNotExist
    rw [hCont2]
    simp only [if_true]
    rw [AdapterMemory.handleLruKey_none _ hcSetLru]
  have h3 : (cSet.Get t3 key).1 = some (some v1) := by
    unfold AdapterMemory.Get
    rw [hget1]
    simp only
    rw [hlive t3 hlive3]
    simp only [Bool.false_eq_true, if_false]
  rw [h1]
  exact ⟨rfl, by rw [h2], by rw [h2]; exact h3⟩

/-- C8, witness: fresh cache, `d` = 1 s (in nanoseconds), writes at
clock 0 and reads at clocks 500 and 900. -/
theorem setIfNotExist_first_write_wins_witness :
    ((newAdapterMemory : AdapterMemory Nat Nat).SetIfNotExist (E := Nat) 0 5
        (SetParam.value (some 1)) 1000000000).1 = true ∧
    (((newAdapterMemory : AdapterMemory Nat Nat).SetIfNotExist (E := Nat) 0 5
        (SetParam.value (some 1)) 1000000000).2.2.SetIfNotExist (E := Nat) 500 5
        (SetParam.value (some 2)) 1000000000).1 = false ∧
    ((((newAdapterMemory : AdapterMemory Nat Nat).SetIfNotExist (E := Nat) 0 5
        (SetParam.value (some 1)) 1000000000).2.2.SetIfNotExist (E := Nat) 500 5
        (SetParam.value (some 2)) 1000000000).2.2.Get 900 5).1 = some (some 1) :=
  setIfNotExist_first_write_wins (newAdapterMemory : AdapterMemory Nat Nat) 5 1 2
    1000000000 0 500 900 rfl rfl (by decide) (by decide) (by decide)

theorem memoryData.Get_cons_other (d : memoryData K V) (a key : K) (it : memoryDataItem V)
    (h : a ≠ key) :
    memoryData.Get ((a, it) :: d) key = memoryData.Get d key := by
  unfold memoryData.Get
  rw [List.find?_cons_of_neg _ (by simpa using h)]

theorem memoryData.Get_append_fresh (l1 l2 : memoryData K V) (key : K)
    (h : ∀ p ∈ l1, p.1 ≠ key) :
    memoryData.Get (l1 ++ l2) key = memoryData.Get l2 key := by
  unfold memoryData.Get
  rw [List.find?_append, List.find?_eq_none.2 (fun x hx => by simpa using h x hx)]
  rfl

theorem not_mem_Keys_Delete (d : memoryData K V) (key : K) (now : Int) :
    key ∉ memoryData.Keys (memoryData.Delete d key) now := by
  intro h
  unfold memoryData.Keys at h
  rcases List.mem_map.1 h with ⟨x, hx, hxk⟩
  have hx2 := (List.mem_filter.1 hx).1
  have hx3 := List.of_mem_filter hx2
  simp only [decide_eq_true_eq] at hx3
  exact hx3 hxk

/-- `memoryData.Remove` of a single present key. -/
theorem memoryData.Remove_single (d : memoryData K V) (key : K) (item : memoryDataItem V)
    (h : memoryData.Get d key = some item) :
    memoryData.Remove d [key] = ([key], item.v, memoryData.Delete d key) := by
  unfold memoryData.Remove
  simp only [List.foldl_cons, List.foldl_nil]
  rw [h]
  rfl

/-- `doSaveAndEvict` on a fresh key with room left: push to front,
evict nothing. -/
theorem doSaveAndEvict_fresh_room (l : memoryLru K) (key : K)
    (hkl : key ∉ l.list) (hlen : (l.list.length : Int) + 1 ≤ l.cap) :
    l.doSaveAndEvict key = ({ l with list := key :: l.list }, none) := by
  unfold memoryLru.doSaveAndEvict
  rw [if_neg hkl]
  simp only
  rw [if_pos (by simp; omega)]

/-- `doSaveAndEvict` on a fresh key with the list full: push to front,
pop and return the back key. -/
theorem doSaveAndEvict_fresh_full (l : memoryLru K) (key : K)
    (hkl : key ∉ l.list) (hne : l.list ≠ [])
    (hlen : l.cap < (l.list.length : Int) + 1) :
    l.doSaveAndEvict key =
      ({ l with list := (key :: l.list).dropLast }, some (l.list.getLast hne)) := by
  unfold memoryLru.doSaveAndEvict
  rw [if_neg hkl]
  simp only
  rw [if_neg (by simp; omega)]
  rw [List.getLast?_eq_getLast (key :: l.list) (by simp)]
  simp only
  rw [List.getLast_cons hne]

/-- `AdapterMemory.Set` of a fresh key on a cache whose LRU still has
room: the entry and the event are appended, the key is pushed to the
front of the LRU, nothing is evicted. -/
theorem Set_fresh_room (c : AdapterMemory K V) (cap : Int) (lst : List K) (key : K)
    (v : Option V) (now dur : Int)
    (hlru : c.lru = some ⟨cap, lst⟩)
    (hkl : key ∉ lst)
    (hfresh : ∀ p ∈ c.data, p.1 ≠ key)
    (hlen : (lst.length : Int) + 1 ≤ cap) :
    c.Set now key v dur =
      ({ data := (key, ⟨v, getInternalExpire now dur⟩) :: c.data,
         lru := some ⟨cap, key :: lst⟩,
         eventList := c.eventList ++ [(key, getInternalExpire now dur)],
         closed := c.closed }, []) := by
  have hdata : memoryData.Set c.data key ⟨v, getInternalExpire now dur⟩
      = (key, ⟨v, getInternalExpire now dur⟩) :: c.data := by
    unfold memoryData.Set
    rw [List.filter_eq_self.2 (fun p hp => by simpa using hfresh p hp)]
  unfold AdapterMemory.Set
  simp only
  unfold AdapterMemory.handleLruKey
  simp only [hlru]
  unfold memoryLru.SaveAndEvict
  simp only [List.foldl_cons, List.foldl_nil]
  rw [doSaveAndEvict_fresh_room ⟨cap, lst⟩ key hkl (by simpa using hlen)]
  simp only [List.isEmpty_nil, if_true, hdata]

/-- `AdapterMemory.Set` of a fresh key on a cache whose LRU is full:
the entry and the event are appended, the back key of the LRU is
evicted, and the evicted key is removed from the data map (with its
past-expiry event pushed). -/
theorem Set_fresh_full (c : AdapterMemory K V) (cap : Int) (lst : List K) (key : K)
    (v : Option V) (now dur : Int)
    (hlru : c.lru = some ⟨cap, lst⟩)
    (hkl : key ∉ lst)
    (hne : lst ≠ [])
    (hfresh : ∀ p ∈ c.data, p.1 ≠ key)
    (hlen : cap < (lst.length : Int) + 1)
    (itemB : memoryDataItem V)
    (hback : memoryData.Get c.data (lst.getLast hne) = some itemB) :
    c.Set now key v dur =
      ({ data := memoryData.Delete ((key, ⟨v, getInternalExpire now dur⟩) :: c.data)
           (lst.getLast hne),
         lru := some ⟨cap, (key :: lst).dropLast⟩,
         eventList := (c.eventList ++ [(key, getInternalExpire now dur)])
           ++ [(lst.getLast hne, now - 1000)],
         closed := c.closed }, [lst.getLast hne]) := by
  have hdata : memoryData.Set c.data key ⟨v, getInternalExpire now dur⟩
      = (key, ⟨v, getInternalExpire now dur⟩) :: c.data := by
    unfold memoryData.Set
    rw [List.filter_eq_self.2 (fun p hp => by simpa using hfresh p hp)]
  have hgetB : memoryData.Get ((key, ⟨v, getInternalExpire now dur⟩) :: c.data)
      (lst.getLast hne) = some itemB := by
    rw [memoryData.Get_cons_other _ _ _ _
      (fun h => hkl (by rw [h]; exact List.getLast_mem hne)), hback]
  unfold AdapterMemory.Set
  simp only
  rw [hdata]
  unfold AdapterMemory.handleLruKey
  simp only [hlru]
  unfold memoryLru.SaveAndEvict
  simp only [List.foldl_cons, List.foldl_nil]
  rw [doSaveAndEvict_fresh_full ⟨cap, lst⟩ key hkl hne (by simpa using hlen)]
  simp only [List.nil_append, List.isEmpty_cons, Bool.false_eq_true, if_false]
  unfold AdapterMemory.doRemove
  simp only [memoryData.Remove_single _ _ itemB hgetB, List.map_cons, List.map_nil]

/-- A run of `Set` calls over fresh distinct keys that all fit within
the LRU capacity: every key is stored, the LRU holds the keys in
reverse order of writing, and nothing is evicted. -/
theorem foldl_set_fresh (v : Option V) (now dur : Int) (ks : List K) :
    ∀ (c : AdapterMemory K V) (acc : List K) (cap : Int) (lst : List K),
      c.lru = some ⟨cap, lst⟩ →
      ks.Nodup →
      (∀ k ∈ ks, k ∉ lst) →
      (∀ k ∈ ks, ∀ p ∈ c.data, p.1 ≠ k) →
      ((lst.length : Int) + ks.length ≤ cap) →
      ks.foldl (setStep now v dur) (c, acc) =
        ({ data := (ks.map (fun k => (k, ⟨v, getInternalExpire now dur⟩))).reverse ++ c.data,
           lru := some ⟨cap, ks.reverse ++ lst⟩,
           eventList := c.eventList ++ ks.map (fun k => (k, getInternalExpire now dur)),
           closed := c.closed }, acc) := by
  induction ks with
  | nil =>
    intro c acc cap lst hlru _ _ _ _
    simp only [List.foldl_nil, List.map_nil, List.reverse_nil, List.nil_append,
      List.append_nil]
    rw [← hlru]
  | cons k ks ih =>
    intro c acc cap lst hlru hnd hkl hfresh hlen
    have hkks := List.nodup_cons.1 hnd
    have hset := Set_fresh_room c cap lst k v now dur hlru
      (hkl k (List.mem_cons_self k ks))
      (fun p hp => hfresh k (List.mem_cons_self k ks) p hp)
      (by simp at hlen ⊢; omega)
    rw [List.foldl_cons]
    have hstep : setStep now v dur (c, acc) k =
        ({ data := (k, ⟨v, getInternalExpire now dur⟩) :: c.data,
           lru := some ⟨cap, k :: lst⟩,
           eventList := c.eventList ++ [(k, getInternalExpire now dur)],
           closed := c.closed }, acc) := by
      unfold setStep
      rw [hset]
      simp
    rw [hstep]
    rw [ih _ acc cap (k :: lst) rfl hkks.2
      (by
        intro k2 hk2
        rw [List.mem_cons]
        rintro (rfl | h2)
        · exact hkks.1 hk2
        · exact hkl k2 (List.mem_cons_of_mem k hk2) h2)
      (by
        intro k2 hk2 p hp
        rcases List.mem_cons.1 hp with rfl | hp2
        · intro h2
          exact hkks.1 (by rw [show k = k2 from h2]; exact hk2)
        · exact hfresh k2 (List.mem_cons_of_mem k hk2) p hp2)
      (by simp at hlen ⊢; omega)]
    simp [List.append_assoc]

/-- C6.  With LRU capacity `C > 0`, a sequence of `C + 1` `Set` calls
on distinct keys (and no intervening reads) evicts exactly one key,
namely the first key written, and the eviction removes it from the
data map, so it no longer appears in `Keys()`. -/
theorem lru_evicts_exactly_first_written (cap : Int) (k0 : K) (rest : List K)
    (v : Option V) (now dur : Int)
    (hnd : (k0 :: rest).Nodup) (hlen : (rest.length : Int) = cap) (hcap : 0 < cap) :
    (setSeq (newAdapterMemoryLru cap) now v dur (k0 :: rest)).2 = [k0] ∧
    memoryData.Get (setSeq (newAdapterMemoryLru cap) now v dur (k0 :: rest)).1.data k0
      = none ∧
    k0 ∉ (setSeq (newAdapterMemoryLru cap) now v dur (k0 :: rest)).1.Keys now := by
  rcases rest.eq_nil_or_concat with rfl | ⟨mid, klast, rfl⟩
  · simp at hlen
    omega
  · rw [List.concat_eq_append] at hnd hlen ⊢
    have h1 : k0 ∉ mid ++ [klast] := (List.nodup_cons.1 hnd).1
    have h2 : (mid ++ [klast]).Nodup := (List.nodup_cons.1 hnd).2
    have hk0mid : k0 ∉ mid := fun h => h1 (List.mem_append_left _ h)
    have hk0klast : k0 ≠ klast := fun h => h1 (by simp [h])
    have hklastmid : klast ∉ mid := fun h => (List.nodup_append.1 h2).2.2 h (by simp)
    have hmidnd : mid.Nodup := (List.nodup_append.1 h2).1
    have hlen2 : ((mid.length : Int) + 1) = cap := by
      simp at hlen
      omega
    unfold setSeq
    rw [show k0 :: (mid ++ [klast]) = (k0 :: mid) ++ [klast] by simp,
      List.foldl_append]
    rw [foldl_set_fresh v now dur (k0 :: mid) (newAdapterMemoryLru cap) [] cap []
      rfl (List.nodup_cons.2 ⟨hk0mid, hmidnd⟩)
      (by intro k hk; exact List.not_mem_nil k)
      (by intro k _ p hp; exact absurd hp (List.not_mem_nil p))
      (by simp; omega)]
    simp only [newAdapterMemoryLru, List.append_nil, List.nil_append]
    rw [List.foldl_cons, List.foldl_nil]
    set e := getInternalExpire now dur with he
    set c1 : AdapterMemory K V :=
      { data := ((k0 :: mid).map (fun k => (k, ⟨v, e⟩))).reverse,
        lru := some ⟨cap, (k0 :: mid).reverse⟩,
        eventList := (k0 :: mid).map (fun k => (k, e)),
        closed := false } with hc1
    have hlstne : (k0 :: mid).reverse ≠ [] := by simp
    have hlast : (k0 :: mid).reverse.getLast hlstne = k0 := by
      have hh : (k0 :: mid).reverse = mid.reverse ++ [k0] := by simp
      rw [List.getLast_congr _ _ hh, List.getLast_concat]
    have hklastlst : klast ∉ (k0 :: mid).reverse := by
      rw [List.mem_reverse, List.mem_cons]
      rintro (rfl | h)
      · exact hk0klast rfl
      · exact hklastmid h
    have hfresh1 : ∀ p ∈ c1.data, p.1 ≠ klast := by
      intro p hp
      rw [hc1] at hp
      simp only [List.mem_reverse, List.mem_map] at hp
      rcases hp with ⟨k, hk, rfl⟩
      intro h2
      have h3 : k = klast := h2
      rcases List.mem_cons.1 hk with rfl | hk2
      · exact hk0klast h3
      · exact hklastmid (by rw [← h3]; exact hk2)
    have hgetk0 : memoryData.Get c1.data ((k0 :: mid).reverse.getLast hlstne)
        = some ⟨v, e⟩ := by
      rw [hlast, hc1]
      show memoryData.Get (((k0 :: mid).map (fun k => (k, ⟨v, e⟩))).reverse) k0 = some ⟨v, e⟩
      rw [show ((k0 :: mid).map (fun k => (k, (⟨v, e⟩ : memoryDataItem V)))).reverse
          = ((mid.map (fun k => (k, (⟨v, e⟩ : memoryDataItem V)))).reverse
              ++ [(k0, ⟨v, e⟩)]) by simp]
      rw [memoryData.Get_append_fresh]
      · unfold memoryData.Get
        rw [List.find?_cons_of_pos _ (by simp)]
        rfl
      · intro p hp
        rw [List.mem_reverse] at hp
        rcases List.mem_map.1 hp with ⟨k, hk, rfl⟩
        intro h2
        have h3 : k = k0 := h2
        exact hk0mid (by rw [← h3]; exact hk)
    have hset := Set_fresh_full c1 cap ((k0 :: mid).reverse) klast v now dur rfl
      hklastlst hlstne hfresh1
      (by simp; omega) ⟨v, e⟩ hgetk0
    have hstep : setStep now v dur (c1, []) klast =
        (({ data := memoryData.Delete ((klast, ⟨v, e⟩) :: c1.data)
              ((k0 :: mid).reverse.getLast hlstne),
            lru := some ⟨cap, (klast :: (k0 :: mid).reverse).dropLast⟩,
            eventList := (c1.eventList ++ [(klast, e)])
              ++ [((k0 :: mid).reverse.getLast hlstne, now - 1000)],
            closed := c1.closed } : AdapterMemory K V), [(k0 :: mid).reverse.getLast hlstne]) := by
      unfold setStep
      rw [hset]
      simp
    rw [hstep]
    refine ⟨by rw [hlast], ?_, ?_⟩
    · rw [hlast]
      exact memoryData.Get_Delete_self _ k0
    · rw [hlast]
      exact not_mem_Keys_Delete _ k0 now

/-- C6, witness: capacity 1, two distinct keys written; key 0 is the
one evicted and key 1 survives. -/
theorem lru_evicts_exactly_first_written_witness :
    (setSeq (newAdapterMemoryLru (K := Nat) (V := Nat) 1) 0 (some 9) 0 [0, 1]).2 = [0] ∧
    memoryData.Get
      (setSeq (newAdapterMemoryLru (K := Nat) (V := Nat) 1) 0 (some 9) 0 [0, 1]).1.data 0
      = none ∧
    0 ∉ (setSeq (newAdapterMemoryLru (K := Nat) (V := Nat) 1) 0 (some 9) 0 [0, 1]).1.Keys 0 :=
  lru_evicts_exactly_first_written 1 0 [1] (some 9) 0 0 (by decide) (by decide) (by decide)

end GCacheProof
